import Mathlib

/-!
Verification of the ateam-mcp authentication/session broker.

The definitions below are a shallow embedding of the JavaScript source:
  - `parseApiKey` embeds src/api.js parseApiKey (the credential codec);
  - the session-credential store embeds src/api.js
    setSessionCredentials / getCredentials / isAuthenticated / headers;
  - the OAuth provider state machine embeds src/oauth.js
    (POST /authorize-submit and exchangeAuthorizationCode);
  - the write-tool gate embeds src/tools.js handleToolCall;
  - the token relay embeds src/stub.js getNewestToken / autoInjectToken.
Time is passed explicitly as a natural number of milliseconds; the
JavaScript Maps are modelled as association lists with the usual
get/set/delete semantics.
-/

namespace ATeam

/-- Result of `parseApiKey` in src/api.js: the extracted tenant (if any)
and whether the key is structurally valid. -/
structure ParseResult where
  tenant : Option String
  isValid : Bool
deriving DecidableEq, Repr

/-- Character class `[a-z0-9]` used by the key regex. -/
def isLowerAlnum (c : Char) : Bool :=
  ('a' ≤ c && c ≤ 'z') || ('0' ≤ c && c ≤ '9')

/-- Character class `[a-z0-9-]` for the middle of a tenant name. -/
def isTenantChar (c : Char) : Bool :=
  isLowerAlnum c || c = '-'

/-- Character class `[0-9a-f]` for the hex suffix. -/
def isHexChar (c : Char) : Bool :=
  ('0' ≤ c && c ≤ '9') || ('a' ≤ c && c ≤ 'f')

/-- Tail of a tenant name: zero or more `[a-z0-9-]` characters followed by
a final `[a-z0-9]` character (the length bound is checked separately). -/
def tenantTail : List Char → Bool
  | [] => false
  | [d] => isLowerAlnum d
  | c :: rest => isTenantChar c && tenantTail rest

/-- The tenant part of the key regex in src/api.js: a leading `[a-z0-9]`,
then up to 28 characters of `[a-z0-9-]`, then a trailing `[a-z0-9]`
(so the tail after the first character has length at most 29). -/
def tenantOk : List Char → Bool
  | [] => false
  | c :: rest => isLowerAlnum c && rest.length ≤ 29 && tenantTail rest

/-- The hex part of the key regex: exactly 32 characters of `[0-9a-f]`. -/
def hexOk (l : List Char) : Bool :=
  l.length = 32 && l.all isHexChar

/-- Split a character list at its first underscore, as the anchored regex
does (tenant names cannot contain an underscore, so the first underscore
after the `adas_` tag is the only possible separator). -/
def splitAtUnderscore : List Char → Option (List Char × List Char)
  | [] => none
  | c :: rest =>
    if c = '_' then some ([], rest)
    else
      match splitAtUnderscore rest with
      | some (a, b) => some (c :: a, b)
      | none => none

/-- The five leading characters `adas_` required by both key formats. -/
def adasTag : List Char := ['a', 'd', 'a', 's', '_']

/-- `parseApiKey` of src/api.js on the character list of the key:
accepts `adas_<tenant>_<32hex>` (extracting the tenant) and the legacy
`adas_<32hex>` (tenant null); everything else is invalid. -/
def parseApiKeyChars (l : List Char) : ParseResult :=
  if l.take 5 = adasTag then
    match splitAtUnderscore (l.drop 5) with
    | some (t, h) =>
      if tenantOk t && hexOk h then ⟨some (String.mk t), true⟩
      else ⟨none, false⟩
    | none =>
      if hexOk (l.drop 5) then ⟨none, true⟩ else ⟨none, false⟩
  else ⟨none, false⟩

/-- `parseApiKey` of src/api.js. -/
def parseApiKey (key : String) : ParseResult :=
  parseApiKeyChars key.data
/-- The tenant shape described by the spec, stated independently of the
matcher: a leading `[a-z0-9]` character, a middle of at most 28
characters from `[a-z0-9-]`, and a trailing `[a-z0-9]` character. -/
def SpecTenant (t : List Char) : Prop :=
  ∃ a mid b, t = a :: (mid ++ [b]) ∧ isLowerAlnum a = true ∧
    isLowerAlnum b = true ∧ mid.length ≤ 28 ∧ ∀ c ∈ mid, isTenantChar c = true

/-- The hex-suffix shape described by the spec: exactly 32 characters,
each from `[0-9a-f]`. -/
def SpecHex (h : List Char) : Prop :=
  h.length = 32 ∧ ∀ c ∈ h, isHexChar c = true

/-- `Map.get` on a JavaScript Map, modelled over an association list. -/
def mapGet {α : Type} (m : List (String × α)) (k : String) : Option α :=
  match m.find? (fun p => p.1 = k) with
  | some p => some p.2
  | none => none

/-- `Map.delete` on a JavaScript Map. -/
def mapErase {α : Type} (m : List (String × α)) (k : String) :
    List (String × α) :=
  m.filter (fun p => p.1 ≠ k)

/-- `Map.set` on a JavaScript Map. -/
def mapSet {α : Type} (m : List (String × α)) (k : String) (v : α) :
    List (String × α) :=
  (k, v) :: mapErase m k

/-- A registered OAuth client (src/oauth.js ATeamClientsStore records). -/
structure ClientReg where
  client_id : String
  client_name : Option String
deriving DecidableEq, Repr

/-- Authorization-request parameters carried through the flow. -/
structure AuthParams where
  redirectUri : String
  codeChallenge : String
  state : Option String
deriving DecidableEq, Repr

/-- A code-table entry (`provider.codes` in src/oauth.js). -/
structure CodeEntry where
  client : ClientReg
  params : AuthParams
  apiKey : String
  expiresAt : Nat
deriving DecidableEq, Repr

/-- A pending-authorization entry (`provider.pending` in src/oauth.js). -/
structure PendingEntry where
  client : ClientReg
  params : AuthParams
  expiresAt : Nat
deriving DecidableEq, Repr

def AUTH_CODE_TTL : Nat := 5 * 60 * 1000

def PENDING_TTL : Nat := 10 * 60 * 1000

/-- The OAuth provider's mutable maps (src/oauth.js ATeamOAuthProvider). -/
structure ProviderState where
  codes : List (String × CodeEntry)
  pending : List (String × PendingEntry)
deriving DecidableEq, Repr

/-- The token endpoint's success payload. -/
structure TokenResponse where
  access_token : String
  token_type : String
  expires_in : Nat
deriving DecidableEq, Repr

/-- Failure cases thrown by `exchangeAuthorizationCode` in src/oauth.js. -/
inductive ExchangeError where
  | invalidCode
  | notIssuedToThisClient
  | expired
deriving DecidableEq, Repr

/-- `exchangeAuthorizationCode` of src/oauth.js: look up the code; reject an
unknown code, then a client mismatch, then an expired code (deleting it);
otherwise delete the code (one-time use) and return the stored API key as
a bearer token. Returns the result together with the updated code table. -/
def exchangeAuthorizationCode (codes : List (String × CodeEntry))
    (client : ClientReg) (code : String) (now : Nat) :
    Except ExchangeError TokenResponse × List (String × CodeEntry) :=
  match mapGet codes code with
  | none => (Except.error ExchangeError.invalidCode, codes)
  | some entry =>
    if entry.client.client_id ≠ client.client_id then
      (Except.error ExchangeError.notIssuedToThisClient, codes)
    else if entry.expiresAt < now then
      (Except.error ExchangeError.expired, mapErase codes code)
    else
      (Except.ok ⟨entry.apiKey, "bearer", 86400 * 365⟩, mapErase codes code)

/-- Outcome of POST /authorize-submit in src/oauth.js. -/
inductive SubmitResult where
  | expiredPage
  | invalidFormatPage
  | redirect (code : String) (state : Option String)
deriving DecidableEq, Repr

/-- The POST /authorize-submit handler of src/oauth.js: a missing or
expired pending record renders the expired page (deleting the pending id);
an API key failing `parseApiKey` re-renders the form with a format error
and keeps the pending record; otherwise a one-time code bound to the
pending client, params and submitted key is minted with a 5-minute TTL,
the pending record is deleted, and the client is redirected with the code
and the original state. `freshCode` stands for the generated UUID. -/
def authorizeSubmit (st : ProviderState) (pending_id api_key : String)
    (now : Nat) (freshCode : String) : SubmitResult × ProviderState :=
  match mapGet st.pending pending_id with
  | none =>
    (SubmitResult.expiredPage,
     { st with pending := mapErase st.pending pending_id })
  | some entry =>
    if entry.expiresAt < now then
      (SubmitResult.expiredPage,
       { st with pending := mapErase st.pending pending_id })
    else if (parseApiKey api_key).isValid then
      (SubmitResult.redirect freshCode entry.params.state,
       { codes := mapSet st.codes freshCode
           ⟨entry.client, entry.params, api_key, now + AUTH_CODE_TTL⟩,
         pending := mapErase st.pending pending_id })
    else
      (SubmitResult.invalidFormatPage, st)

/-- The environment configuration read at module load in src/api.js
(ADAS_TENANT and ADAS_API_KEY, both defaulting to the empty string). -/
structure Env where
  ADAS_TENANT : String
  ADAS_API_KEY : String
deriving DecidableEq, Repr

/-- A record of the per-session credential store (`sessions` in
src/api.js). -/
structure SessionCreds where
  tenant : String
  apiKey : String
deriving DecidableEq, Repr

abbrev SessionMap := List (String × SessionCreds)

/-- JavaScript truthiness of an optional string: `null`, `undefined` and
the empty string are falsy. -/
def optTruthy : Option String → Bool
  | none => false
  | some t => t ≠ ""

/-- The `tenant || "main"` default applied by src/api.js before
storing or returning a tenant. -/
def storedOrMain : Option String → String
  | some t => if t = "" then "main" else t
  | none => "main"

/-- The `t || "main"` default on a plain string. -/
def mainIfEmpty (t : String) : String :=
  if t = "" then "main" else t

/-- The tenant resolution of the environment branch of `getCredentials`
in src/api.js: when ADAS_TENANT is unset and an ADAS_API_KEY is present,
auto-extract the tenant embedded in the key. -/
def envResolvedTenant (env : Env) : String :=
  if env.ADAS_TENANT = "" ∧ env.ADAS_API_KEY ≠ "" then
    match (parseApiKey env.ADAS_API_KEY).tenant with
    | some t => if t = "" then env.ADAS_TENANT else t
    | none => env.ADAS_TENANT
  else env.ADAS_TENANT

/-- The environment-fallback branch of `getCredentials` in src/api.js. -/
def envDefaultCreds (env : Env) : SessionCreds :=
  { tenant := mainIfEmpty (envResolvedTenant env),
    apiKey := env.ADAS_API_KEY }

/-- The tenant resolution of `setSessionCredentials` in src/api.js: a
truthy caller-supplied tenant wins; otherwise the tenant embedded in the
key, if any; otherwise "main". -/
def resolveStoredTenant (tenant : Option String) (apiKey : String) :
    String :=
  storedOrMain
    (if optTruthy tenant then tenant
     else if apiKey ≠ "" then
       match (parseApiKey apiKey).tenant with
       | some t => if t = "" then tenant else some t
       | none => tenant
     else tenant)

/-- `setSessionCredentials` of src/api.js: resolve a missing tenant from
the tenant embedded in the key, default to "main", and upsert the
session entry. -/
def setSessionCredentials (m : SessionMap) (sessionId : String)
    (tenant : Option String) (apiKey : String) : SessionMap :=
  mapSet m sessionId ⟨resolveStoredTenant tenant apiKey, apiKey⟩

/-- `getCredentials` of src/api.js: a (truthy) session id with a stored
entry wins; otherwise the environment default applies. -/
def getCredentials (env : Env) (m : SessionMap) (sessionId : String) :
    SessionCreds :=
  match (if sessionId = "" then none else mapGet m sessionId) with
  | some s => s
  | none => envDefaultCreds env

/-- `isAuthenticated` of src/api.js: an API key from any source. -/
def isAuthenticated (env : Env) (m : SessionMap) (sessionId : String) :
    Bool :=
  decide (0 < (getCredentials env m sessionId).apiKey.length)

/-- `clearSession` of src/api.js. -/
def clearSession (m : SessionMap) (sessionId : String) : SessionMap :=
  mapErase m sessionId

/-- The headers built by `headers` in src/api.js for outbound backend
calls: Content-Type always, X-ADAS-TENANT and X-API-KEY when truthy. -/
structure BackendHeaders where
  contentType : String
  xAdasTenant : Option String
  xApiKey : Option String
deriving DecidableEq, Repr

/-- `headers` of src/api.js. -/
def headers (env : Env) (m : SessionMap) (sessionId : String) :
    BackendHeaders :=
  { contentType := "application/json",
    xAdasTenant :=
      if (getCredentials env m sessionId).tenant = "" then none
      else some (getCredentials env m sessionId).tenant,
    xApiKey :=
      if (getCredentials env m sessionId).apiKey = "" then none
      else some (getCredentials env m sessionId).apiKey }

/-- The WRITE_TOOLS set of src/tools.js: tools that require
authentication. -/
def WRITE_TOOLS : List String :=
  ["ateam_deploy_solution", "ateam_deploy_skill", "ateam_deploy_connector",
   "ateam_update", "ateam_redeploy", "ateam_solution_chat",
   "ateam_get_execution_logs", "ateam_test_skill",
   "ateam_get_connector_source", "ateam_get_metrics", "ateam_diff"]

/-- The keys of the `handlers` object of src/tools.js. -/
def HANDLER_TOOLS : List String :=
  ["ateam_bootstrap", "ateam_auth", "ateam_get_spec", "ateam_get_workflows",
   "ateam_get_examples", "ateam_validate_skill", "ateam_validate_solution",
   "ateam_deploy_solution", "ateam_deploy_skill", "ateam_deploy_connector",
   "ateam_list_solutions", "ateam_get_solution", "ateam_update",
   "ateam_redeploy", "ateam_solution_chat", "ateam_get_execution_logs",
   "ateam_test_skill", "ateam_get_connector_source", "ateam_get_metrics",
   "ateam_diff"]

/-- Control-flow outcome of `handleToolCall` in src/tools.js, up to the
point where the tool handler itself runs. -/
inductive ToolOutcome where
  | unknownTool
  | authRequired
  | proceedToHandler
deriving DecidableEq, Repr

/-- The dispatch gate of `handleToolCall` in src/tools.js: unknown tools
are rejected; a write tool with no API key from any source returns the
authentication-required instruction; everything else reaches its
handler. -/
def gateToolCall (env : Env) (m : SessionMap) (name sessionId : String) :
    ToolOutcome :=
  if name ∉ HANDLER_TOOLS then ToolOutcome.unknownTool
  else if name ∈ WRITE_TOOLS ∧ isAuthenticated env m sessionId = false then
    ToolOutcome.authRequired
  else ToolOutcome.proceedToHandler

/-- An entry of the `recentTokens` cache in src/stub.js. -/
structure TokenEntry where
  token : String
  createdAt : Nat
deriving DecidableEq, Repr

def TOKEN_TTL : Nat := 60 * 60 * 1000

/-- One step of the `getNewestToken` loop in src/stub.js: skip entries
older than TOKEN_TTL, otherwise keep the entry with the strictly larger
creation time (the earlier entry wins ties). -/
def pickNewer (now : Nat) (newest : Option TokenEntry) (e : TokenEntry) :
    Option TokenEntry :=
  if TOKEN_TTL < now - e.createdAt then newest
  else
    match newest with
    | none => some e
    | some b => if b.createdAt < e.createdAt then some e else some b

/-- The accumulator loop of `getNewestToken` over the cache in insertion
order. -/
def newestLoop (now : Nat) :
    Option TokenEntry → List TokenEntry → Option TokenEntry
  | acc, [] => acc
  | acc, e :: rest => newestLoop now (pickNewer now acc e) rest

/-- `getNewestToken` of src/stub.js. -/
def getNewestToken (cache : List TokenEntry) (now : Nat) : Option String :=
  (newestLoop now none cache).map TokenEntry.token

/-- An inbound MCP request, reduced to the fields the token-relay
middleware inspects. -/
structure McpRequest where
  method : String
  authorization : Option String
deriving DecidableEq, Repr

/-- The `autoInjectToken` middleware of src/stub.js: a truthy
Authorization header passes through untouched; otherwise the newest
non-expired cached token, when one exists, is injected as a Bearer
header. -/
def autoInjectToken (cache : List TokenEntry) (now : Nat)
    (req : McpRequest) : McpRequest :=
  if optTruthy req.authorization then req
  else
    match getNewestToken cache now with
    | some t => { req with authorization := some ("Bearer " ++ t) }
    | none => req

/-- Per-session context fields of the spec's Session entity. -/
structure SessionContext where
  active_resource_id : Option String
  last_sub_resource_id : Option String
  last_operation_name : Option String
deriving DecidableEq, Repr

def emptyContext : SessionContext := ⟨none, none, none⟩

/-- Modelled from the spec: the Session entity of the SessionStore
(session_id is the map key; tenant, credential, last_activity_at and
context are the stored fields). The SessionStore with activity tracking
is described in the spec but absent from src/. -/
structure SessionRec where
  tenant : String
  credential : String
  last_activity_at : Nat
  context : SessionContext
deriving DecidableEq, Repr

/-- Modelled from the spec: a TenantFallbackEntry — tenant, credential
and creation time, expiring after FALLBACK_TTL. The TenantFallbackCache
is described in the spec but absent from src/. -/
structure TenantFallbackEntry where
  tenant : String
  credential : String
  created_at : Nat
deriving DecidableEq, Repr

/-- Modelled from the spec: the broker's two process-wide stores, the
SessionStore map and the TenantFallbackCache. -/
structure BrokerState where
  sessions : List (String × SessionRec)
  fallback : List TenantFallbackEntry
deriving DecidableEq, Repr

def SESSION_TTL : Nat := 60 * 60 * 1000

def FALLBACK_TTL : Nat := 60 * 60 * 1000

/-- Modelled from the spec: the context retained across a
re-authentication of a live session. -/
def contextOf (st : BrokerState) (sessionId : String) : SessionContext :=
  match mapGet st.sessions sessionId with
  | some r => r.context
  | none => emptyContext

/-- Modelled from the spec: `SessionStore.set(sessionId, tenant,
credential)` — upsert preserving the existing context of a live session,
refreshing last_activity_at, and writing/refreshing the
TenantFallbackEntry for that tenant as a side effect. -/
def storeSet (st : BrokerState) (sessionId tenant credential : String)
    (now : Nat) : BrokerState :=
  { sessions := mapSet st.sessions sessionId
      ⟨tenant, credential, now, contextOf st sessionId⟩,
    fallback :=
      ⟨tenant, credential, now⟩ ::
        st.fallback.filter (fun e => e.tenant ≠ tenant) }

/-- A fallback entry usable for `tenant` at time `now`: exact tenant
match and not older than FALLBACK_TTL. -/
def freshFallback (now : Nat) (tenant : String)
    (e : TenantFallbackEntry) : Bool :=
  e.tenant = tenant && now - e.created_at ≤ FALLBACK_TTL

/-- One step of the newest-entry accumulator over fallback
candidates. -/
def fallbackStep (acc : Option TenantFallbackEntry)
    (e : TenantFallbackEntry) : Option TenantFallbackEntry :=
  match acc with
  | none => some e
  | some b => if b.created_at < e.created_at then some e else some b

/-- Newest-entry accumulator over fallback candidates. -/
def newestFallback (now : Nat) :
    Option TenantFallbackEntry → List TenantFallbackEntry →
    Option TenantFallbackEntry
  | acc, [] => acc
  | acc, e :: rest => newestFallback now (fallbackStep acc e) rest

/-- Modelled from the spec: the lookup half of `seed` — the newest
non-expired TenantFallbackEntry for the given tenant, if any. -/
def fallbackLookup (cache : List TenantFallbackEntry) (tenant : String)
    (now : Nat) : Option TenantFallbackEntry :=
  newestFallback now none (cache.filter (freshFallback now tenant))

/-- Modelled from the spec: `seed(sessionId, tenant)` of the
TenantFallbackCache — look up the newest non-expired entry for exactly
this tenant; if found, install it via `SessionStore.set` and return
true; otherwise return false and perform no mutation. -/
def seed (st : BrokerState) (sessionId tenant : String) (now : Nat) :
    Bool × BrokerState :=
  match fallbackLookup st.fallback tenant now with
  | some e => (true, storeSet st sessionId tenant e.credential now)
  | none => (false, st)

/-- A session idle beyond SESSION_TTL at time `now`. -/
def staleAt (now : Nat) (r : SessionRec) : Bool :=
  SESSION_TTL < now - r.last_activity_at

/-- Modelled from the spec: `sweep()` — delete all sessions whose idle
time exceeds SESSION_TTL and return the count removed. The periodic
sweep is described in the spec but absent from src/. -/
def sweep (st : BrokerState) (now : Nat) : Nat × BrokerState :=
  ((st.sessions.filter (fun p => staleAt now p.2)).length,
   { st with sessions := st.sessions.filter (fun p => ! staleAt now p.2) })

/-- Modelled from the spec: `getCredentials` over the SessionStore, with
the same environment fallback as src/api.js when the session is
absent. -/
def brokerGetCredentials (env : Env) (st : BrokerState)
    (sessionId : String) : SessionCreds :=
  match mapGet st.sessions sessionId with
  | some r => ⟨r.tenant, r.credential⟩
  | none => envDefaultCreds env

/-- Every stored session entry has a non-empty tenant. -/
def StoreOK (m : SessionMap) : Prop :=
  ∀ p ∈ m, p.2.tenant ≠ ""

/-- The session maps reachable through the store's public operations:
the empty initial map, `setSessionCredentials`, and `clearSession`. -/
inductive ReachableStore : SessionMap → Prop
  | empty : ReachableStore []
  | set (m : SessionMap) (sid : String) (tenant : Option String)
      (apiKey : String) : ReachableStore m →
      ReachableStore (setSessionCredentials m sid tenant apiKey)
  | clear (m : SessionMap) (sid : String) : ReachableStore m →
      ReachableStore (clearSession m sid)


example : parseApiKey "adas_acme_0123456789abcdef0123456789abcdef" =
    ⟨some "acme", true⟩ := by decide

example : parseApiKey "adas_0123456789abcdef0123456789abcdef" =
    ⟨none, true⟩ := by decide

example : parseApiKey "adas_acme_0123" = ⟨none, false⟩ := by decide

example : parseApiKey "" = ⟨none, false⟩ := by decide

theorem isTenantChar_ne_underscore {c : Char} (h : isTenantChar c = true) :
    c ≠ '_' := by
  intro hc; subst hc; exact absurd h (by decide)

theorem isLowerAlnum_ne_underscore {c : Char} (h : isLowerAlnum c = true) :
    c ≠ '_' := by
  intro hc; subst hc; exact absurd h (by decide)

theorem isHexChar_ne_underscore {c : Char} (h : isHexChar c = true) :
    c ≠ '_' := by
  intro hc; subst hc; exact absurd h (by decide)

theorem splitAtUnderscore_append (t h : List Char) (ht : '_' ∉ t) :
    splitAtUnderscore (t ++ '_' :: h) = some (t, h) := by
  induction t with
  | nil => simp [splitAtUnderscore]
  | cons c rest ih =>
    have hc : c ≠ '_' := fun hc => ht (hc ▸ List.mem_cons_self c rest)
    have hrest : '_' ∉ rest := fun hm => ht (List.mem_cons_of_mem c hm)
    simp [splitAtUnderscore, hc, ih hrest]

theorem splitAtUnderscore_eq_none (l : List Char) (hl : '_' ∉ l) :
    splitAtUnderscore l = none := by
  induction l with
  | nil => rfl
  | cons c rest ih =>
    have hc : c ≠ '_' := fun hc => hl (hc ▸ List.mem_cons_self c rest)
    have hrest : '_' ∉ rest := fun hm => hl (List.mem_cons_of_mem c hm)
    simp [splitAtUnderscore, hc, ih hrest]

theorem splitAtUnderscore_some (l a b : List Char)
    (h : splitAtUnderscore l = some (a, b)) :
    l = a ++ '_' :: b ∧ '_' ∉ a := by
  induction l generalizing a b with
  | nil => simp [splitAtUnderscore] at h
  | cons c rest ih =>
    by_cases hc : c = '_'
    · subst hc
      simp [splitAtUnderscore] at h
      obtain ⟨ha, hb⟩ := h
      subst ha; subst hb
      exact ⟨rfl, by simp⟩
    · simp only [splitAtUnderscore, if_neg hc] at h
      cases hsplit : splitAtUnderscore rest with
      | none => rw [hsplit] at h; simp at h
      | some p =>
        obtain ⟨a', b'⟩ := p
        rw [hsplit] at h
        injection h with h2
        injection h2 with ha hb
        subst ha; subst hb
        obtain ⟨heq, hnm⟩ := ih a' b' hsplit
        refine ⟨by rw [heq]; rfl, ?_⟩
        intro hm
        rcases List.mem_cons.mp hm with h1 | h2
        · exact hc h1.symm
        · exact hnm h2

theorem tenantTail_iff (l : List Char) : tenantTail l = true ↔
    ∃ mid b, l = mid ++ [b] ∧ isLowerAlnum b = true ∧
      ∀ c ∈ mid, isTenantChar c = true := by
  induction l with
  | nil =>
    simp only [tenantTail]
    constructor
    · intro h; exact absurd h (by decide)
    · rintro ⟨mid, b, heq, -, -⟩
      exact absurd heq.symm (by simp)
  | cons c rest ih =>
    cases rest with
    | nil =>
      simp only [tenantTail]
      constructor
      · intro h; exact ⟨[], c, rfl, h, by simp⟩
      · rintro ⟨mid, b, heq, hb, hmid⟩
        cases mid with
        | nil =>
          simp at heq; subst heq; exact hb
        | cons m ms =>
          simp at heq
    | cons d rest' =>
      simp only [tenantTail, Bool.and_eq_true]
      constructor
      · rintro ⟨hc, htail⟩
        obtain ⟨mid, b, heq, hb, hmid⟩ := (ih).mp htail
        refine ⟨c :: mid, b, by rw [heq]; rfl, hb, ?_⟩
        intro x hx
        rcases List.mem_cons.mp hx with h1 | h2
        · subst h1; exact hc
        · exact hmid x h2
      · rintro ⟨mid, b, heq, hb, hmid⟩
        cases mid with
        | nil =>
          simp at heq
        | cons m ms =>
          simp at heq
          obtain ⟨hcm, hrest⟩ := heq
          subst hcm
          refine ⟨hmid c (List.mem_cons_self c ms), ?_⟩
          exact (ih).mpr ⟨ms, b, hrest, hb, fun x hx =>
            hmid x (List.mem_cons_of_mem c hx)⟩

theorem tenantOk_iff (t : List Char) : tenantOk t = true ↔ SpecTenant t := by
  cases t with
  | nil =>
    simp only [tenantOk, SpecTenant]
    constructor
    · intro h; exact absurd h (by decide)
    · rintro ⟨a, mid, b, heq, -⟩
      exact absurd heq.symm (by simp)
  | cons c rest =>
    simp only [tenantOk, Bool.and_eq_true, decide_eq_true_eq]
    constructor
    · rintro ⟨⟨hc, hlen⟩, htail⟩
      obtain ⟨mid, b, heq, hb, hmid⟩ := (tenantTail_iff rest).mp htail
      refine ⟨c, mid, b, by rw [heq], hc, hb, ?_, hmid⟩
      have : rest.length = mid.length + 1 := by rw [heq]; simp
      omega
    · rintro ⟨a, mid, b, heq, ha, hb, hlen, hmid⟩
      obtain ⟨hca, hrest⟩ : c = a ∧ rest = mid ++ [b] := by
        rw [List.cons_eq_cons] at heq; exact heq
      subst hca
      refine ⟨⟨ha, ?_⟩, (tenantTail_iff rest).mpr ⟨mid, b, hrest, hb, hmid⟩⟩
      rw [hrest]; simp; omega

theorem hexOk_iff (h : List Char) : hexOk h = true ↔ SpecHex h := by
  simp [hexOk, SpecHex, List.all_eq_true]

theorem specTenant_no_underscore {t : List Char} (h : SpecTenant t) :
    '_' ∉ t := by
  obtain ⟨a, mid, b, heq, ha, hb, -, hmid⟩ := h
  subst heq
  intro hm
  rcases List.mem_cons.mp hm with h1 | h2
  · exact isLowerAlnum_ne_underscore ha h1.symm
  · rcases List.mem_append.mp h2 with h3 | h4
    · exact isTenantChar_ne_underscore (hmid _ h3) rfl
    · simp at h4
      exact isLowerAlnum_ne_underscore hb h4.symm

theorem specHex_no_underscore {h : List Char} (hh : SpecHex h) :
    '_' ∉ h := by
  intro hm
  exact isHexChar_ne_underscore (hh.2 _ hm) rfl

theorem parse_tenant_form (t h : List Char) (ht : SpecTenant t) (hh : SpecHex h) :
    parseApiKeyChars (adasTag ++ (t ++ '_' :: h)) = ⟨some (String.mk t), true⟩ := by
  have htag : (adasTag ++ (t ++ '_' :: h)).take 5 = adasTag := List.take_left' rfl
  have hdrop : (adasTag ++ (t ++ '_' :: h)).drop 5 = t ++ '_' :: h :=
    List.drop_left' rfl
  have hsplit := splitAtUnderscore_append t h (specTenant_no_underscore ht)
  simp [parseApiKeyChars, htag, hdrop, hsplit,
    (tenantOk_iff t).mpr ht, (hexOk_iff h).mpr hh]

theorem parse_legacy_form (h : List Char) (hh : SpecHex h) :
    parseApiKeyChars (adasTag ++ h) = ⟨none, true⟩ := by
  have htag : (adasTag ++ h).take 5 = adasTag := List.take_left' rfl
  have hdrop : (adasTag ++ h).drop 5 = h := List.drop_left' rfl
  have hsplit := splitAtUnderscore_eq_none h (specHex_no_underscore hh)
  simp [parseApiKeyChars, htag, hdrop, hsplit, (hexOk_iff h).mpr hh]

theorem parse_valid_shapes (l : List Char)
    (hv : (parseApiKeyChars l).isValid = true) :
    (∃ t h, l = adasTag ++ (t ++ '_' :: h) ∧ SpecTenant t ∧ SpecHex h) ∨
    (∃ h, l = adasTag ++ h ∧ SpecHex h) := by
  unfold parseApiKeyChars at hv
  by_cases htag : l.take 5 = adasTag
  · rw [if_pos htag] at hv
    have hl : l = adasTag ++ l.drop 5 := by
      conv_lhs => rw [← List.take_append_drop 5 l]
      rw [htag]
    cases hsplit : splitAtUnderscore (l.drop 5) with
    | some p =>
      obtain ⟨t, h⟩ := p
      rw [hsplit] at hv
      replace hv : (if (tenantOk t && hexOk h) = true then
          (⟨some (String.mk t), true⟩ : ParseResult)
          else ⟨none, false⟩).isValid = true := hv
      by_cases hok : (tenantOk t && hexOk h) = true
      · left
        obtain ⟨heq, -⟩ := splitAtUnderscore_some _ t h hsplit
        obtain ⟨h1, h2⟩ := Bool.and_eq_true_iff.mp hok
        exact ⟨t, h, by rw [hl, heq], (tenantOk_iff t).mp h1, (hexOk_iff h).mp h2⟩
      · rw [if_neg hok] at hv
        simp at hv
    | none =>
      rw [hsplit] at hv
      replace hv : (if hexOk (l.drop 5) = true then (⟨none, true⟩ : ParseResult)
          else ⟨none, false⟩).isValid = true := hv
      by_cases hok : hexOk (l.drop 5) = true
      · right
        exact ⟨l.drop 5, hl, (hexOk_iff _).mp hok⟩
      · rw [if_neg hok] at hv
        simp at hv
  · rw [if_neg htag] at hv
    simp at hv

theorem mapGet_mapSet_self {α : Type} (m : List (String × α)) (k : String)
    (v : α) : mapGet (mapSet m k v) k = some v := by
  simp [mapGet, mapSet, List.find?]

theorem mapGet_mapErase_self {α : Type} (m : List (String × α)) (k : String) :
    mapGet (mapErase m k) k = none := by
  unfold mapGet
  have : (mapErase m k).find? (fun p => p.1 = k) = none := by
    rw [List.find?_eq_none]
    intro p hp
    have := List.of_mem_filter hp
    simpa using this
  rw [this]

theorem mapErase_of_get_none {α : Type} (m : List (String × α)) (k : String)
    (h : mapGet m k = none) : mapErase m k = m := by
  unfold mapGet at h
  have hfind : m.find? (fun p => p.1 = k) = none := by
    cases hf : m.find? (fun p => p.1 = k) with
    | none => rfl
    | some p => rw [hf] at h; simp at h
  rw [List.find?_eq_none] at hfind
  unfold mapErase
  rw [List.filter_eq_self]
  intro p hp
  simpa using hfind p hp

theorem mapGet_mem {α : Type} {m : List (String × α)} {k : String} {v : α}
    (h : mapGet m k = some v) : (k, v) ∈ m := by
  unfold mapGet at h
  cases hf : m.find? (fun p => p.1 = k) with
  | none => rw [hf] at h; simp at h
  | some p =>
    rw [hf] at h
    have hmem := List.mem_of_find?_eq_some hf
    have hkey := List.find?_some hf
    simp at hkey h
    obtain ⟨p1, p2⟩ := p
    simp at hkey
    subst hkey
    subst h
    exact hmem

/-- C5: for every string of the form adas_<t>_<h> with t matching the
tenant regex and h exactly 32 hex digits, parse returns tenant equal to
the embedded substring t and valid true; for the legacy form adas_<h>,
tenant null and valid true; and a string of neither shape is invalid
(stated contrapositively: a valid parse implies one of the two
shapes). -/
theorem c5_parse_roundtrip :
    (∀ t h : List Char, SpecTenant t → SpecHex h →
      parseApiKeyChars (adasTag ++ (t ++ '_' :: h)) =
        ⟨some (String.mk t), true⟩) ∧
    (∀ h : List Char, SpecHex h →
      parseApiKeyChars (adasTag ++ h) = ⟨none, true⟩) ∧
    (∀ l : List Char, (parseApiKeyChars l).isValid = true →
      (∃ t h, l = adasTag ++ (t ++ '_' :: h) ∧ SpecTenant t ∧ SpecHex h) ∨
      (∃ h, l = adasTag ++ h ∧ SpecHex h)) :=
  ⟨parse_tenant_form, parse_legacy_form, parse_valid_shapes⟩

theorem c5_parse_roundtrip_witness :
    parseApiKeyChars (adasTag ++ (['a', 'c', 'm', 'e'] ++ '_' ::
        String.toList "0123456789abcdef0123456789abcdef")) =
      ⟨some (String.mk ['a', 'c', 'm', 'e']), true⟩ :=
  c5_parse_roundtrip.1 ['a', 'c', 'm', 'e'] _
    ⟨'a', ['c', 'm'], 'e', rfl, by decide, by decide, by decide, by decide⟩
    ⟨by decide, by decide⟩

/-- C2: a code minted by a successful consent submission, exchanged a
first time by the issuing client within AUTH_CODE_TTL, yields a bearer
token and deletes the code from the store; a second exchange of the same
code (at any time) fails with the invalid-code error. -/
theorem c2_code_one_time_use (st : ProviderState) (pid key c : String)
    (e : PendingEntry) (now₀ now now₂ : Nat)
    (hp : mapGet st.pending pid = some e)
    (hexp : ¬ e.expiresAt < now₀)
    (hkey : (parseApiKey key).isValid = true)
    (hnow : now ≤ now₀ + AUTH_CODE_TTL) :
    (authorizeSubmit st pid key now₀ c).1 =
      SubmitResult.redirect c e.params.state ∧
    (exchangeAuthorizationCode (authorizeSubmit st pid key now₀ c).2.codes
        e.client c now).1 = Except.ok ⟨key, "bearer", 86400 * 365⟩ ∧
    mapGet (exchangeAuthorizationCode
        (authorizeSubmit st pid key now₀ c).2.codes e.client c now).2 c =
      none ∧
    (exchangeAuthorizationCode
        (exchangeAuthorizationCode (authorizeSubmit st pid key now₀ c).2.codes
          e.client c now).2 e.client c now₂).1 =
      Except.error ExchangeError.invalidCode := by
  have hsub : authorizeSubmit st pid key now₀ c =
      (SubmitResult.redirect c e.params.state,
       { codes := mapSet st.codes c
           ⟨e.client, e.params, key, now₀ + AUTH_CODE_TTL⟩,
         pending := mapErase st.pending pid }) := by
    simp [authorizeSubmit, hp, hexp, hkey]
  rw [hsub]
  have hget : mapGet (mapSet st.codes c
      ⟨e.client, e.params, key, now₀ + AUTH_CODE_TTL⟩) c =
      some ⟨e.client, e.params, key, now₀ + AUTH_CODE_TTL⟩ :=
    mapGet_mapSet_self _ _ _
  have hfirst : exchangeAuthorizationCode
      (mapSet st.codes c ⟨e.client, e.params, key, now₀ + AUTH_CODE_TTL⟩)
      e.client c now =
      (Except.ok ⟨key, "bearer", 86400 * 365⟩,
       mapErase (mapSet st.codes c
         ⟨e.client, e.params, key, now₀ + AUTH_CODE_TTL⟩) c) := by
    simp only [exchangeAuthorizationCode, hget]
    rw [if_neg (by simp), if_neg (by simp [AUTH_CODE_TTL] at hnow ⊢; omega)]
  rw [hfirst]
  refine ⟨rfl, rfl, mapGet_mapErase_self _ _, ?_⟩
  simp only [exchangeAuthorizationCode, mapGet_mapErase_self]

theorem c2_code_one_time_use_witness :
    (authorizeSubmit ⟨[], [("p1", ⟨⟨"A", none⟩, ⟨"u", "ch", some "s"⟩,
        10000000⟩)]⟩ "p1" "adas_0123456789abcdef0123456789abcdef" 0
        "codeX").1 = SubmitResult.redirect "codeX" (some "s") ∧
    (exchangeAuthorizationCode (authorizeSubmit ⟨[], [("p1", ⟨⟨"A", none⟩,
        ⟨"u", "ch", some "s"⟩, 10000000⟩)]⟩ "p1"
        "adas_0123456789abcdef0123456789abcdef" 0 "codeX").2.codes
        ⟨"A", none⟩ "codeX" 1000).1 =
      Except.ok ⟨"adas_0123456789abcdef0123456789abcdef", "bearer",
        86400 * 365⟩ ∧
    mapGet (exchangeAuthorizationCode (authorizeSubmit ⟨[], [("p1",
        ⟨⟨"A", none⟩, ⟨"u", "ch", some "s"⟩, 10000000⟩)]⟩ "p1"
        "adas_0123456789abcdef0123456789abcdef" 0 "codeX").2.codes
        ⟨"A", none⟩ "codeX" 1000).2 "codeX" = none ∧
    (exchangeAuthorizationCode (exchangeAuthorizationCode (authorizeSubmit
        ⟨[], [("p1", ⟨⟨"A", none⟩, ⟨"u", "ch", some "s"⟩, 10000000⟩)]⟩
        "p1" "adas_0123456789abcdef0123456789abcdef" 0 "codeX").2.codes
        ⟨"A", none⟩ "codeX" 1000).2 ⟨"A", none⟩ "codeX" 2000).1 =
      Except.error ExchangeError.invalidCode :=
  c2_code_one_time_use ⟨[], [("p1", ⟨⟨"A", none⟩, ⟨"u", "ch", some "s"⟩,
      10000000⟩)]⟩ "p1" "adas_0123456789abcdef0123456789abcdef" "codeX"
    ⟨⟨"A", none⟩, ⟨"u", "ch", some "s"⟩, 10000000⟩ 0 1000 2000
    (by decide) (by decide) (by decide) (by decide)

/-- C3: exchanging a code issued to client A under a different client's
identity always fails with the not-issued-to-this-client error,
regardless of the code's expiry, and leaves the code table completely
unchanged. -/
theorem c3_cross_client_fails (codes : List (String × CodeEntry))
    (clientB : ClientReg) (c : String) (now : Nat) (e : CodeEntry)
    (hc : mapGet codes c = some e)
    (hne : e.client.client_id ≠ clientB.client_id) :
    exchangeAuthorizationCode codes clientB c now =
      (Except.error ExchangeError.notIssuedToThisClient, codes) := by
  simp only [exchangeAuthorizationCode, hc]
  rw [if_pos hne]

theorem c3_cross_client_fails_witness :
    exchangeAuthorizationCode
      [("c1", ⟨⟨"clientA", none⟩, ⟨"u", "ch", none⟩, "k", 0⟩)]
      ⟨"clientB", none⟩ "c1" 99999999 =
      (Except.error ExchangeError.notIssuedToThisClient,
       [("c1", ⟨⟨"clientA", none⟩, ⟨"u", "ch", none⟩, "k", 0⟩)]) :=
  c3_cross_client_fails
    [("c1", ⟨⟨"clientA", none⟩, ⟨"u", "ch", none⟩, "k", 0⟩)]
    ⟨"clientB", none⟩ "c1" 99999999
    ⟨⟨"clientA", none⟩, ⟨"u", "ch", none⟩, "k", 0⟩ (by decide) (by decide)

/-- C4: when a consent submission with key k succeeds and the minted code
is later exchanged successfully (by any client, at any time), the token
response carries access_token equal to the exact submitted key k and
token_type "bearer". -/
theorem c4_token_is_submitted_key (st : ProviderState) (pid key c : String)
    (e : PendingEntry) (now₀ now : Nat) (client : ClientReg)
    (resp : TokenResponse)
    (hp : mapGet st.pending pid = some e)
    (hexp : ¬ e.expiresAt < now₀)
    (hkey : (parseApiKey key).isValid = true)
    (hex : (exchangeAuthorizationCode
        (authorizeSubmit st pid key now₀ c).2.codes client c now).1 =
      Except.ok resp) :
    resp.access_token = key ∧ resp.token_type = "bearer" := by
  have hsub : (authorizeSubmit st pid key now₀ c).2.codes =
      mapSet st.codes c ⟨e.client, e.params, key, now₀ + AUTH_CODE_TTL⟩ := by
    simp [authorizeSubmit, hp, hexp, hkey]
  rw [hsub] at hex
  have hget : mapGet (mapSet st.codes c
      ⟨e.client, e.params, key, now₀ + AUTH_CODE_TTL⟩) c =
      some ⟨e.client, e.params, key, now₀ + AUTH_CODE_TTL⟩ :=
    mapGet_mapSet_self _ _ _
  simp only [exchangeAuthorizationCode, hget] at hex
  by_cases h1 : (⟨e.client, e.params, key, now₀ + AUTH_CODE_TTL⟩ :
      CodeEntry).client.client_id ≠ client.client_id
  · rw [if_pos h1] at hex
    simp at hex
  · rw [if_neg h1] at hex
    by_cases h2 : (⟨e.client, e.params, key, now₀ + AUTH_CODE_TTL⟩ :
        CodeEntry).expiresAt < now
    · rw [if_pos h2] at hex
      simp at hex
    · rw [if_neg h2] at hex
      simp at hex
      rw [← hex]
      exact ⟨rfl, rfl⟩

theorem c4_token_is_submitted_key_witness :
    (⟨"adas_0123456789abcdef0123456789abcdef", "bearer", 86400 * 365⟩ :
        TokenResponse).access_token =
      "adas_0123456789abcdef0123456789abcdef" ∧
    (⟨"adas_0123456789abcdef0123456789abcdef", "bearer", 86400 * 365⟩ :
        TokenResponse).token_type = "bearer" :=
  c4_token_is_submitted_key
    ⟨[], [("p1", ⟨⟨"A", none⟩, ⟨"u", "ch", none⟩, 10000000⟩)]⟩ "p1"
    "adas_0123456789abcdef0123456789abcdef" "codeX"
    ⟨⟨"A", none⟩, ⟨"u", "ch", none⟩, 10000000⟩ 0 1000 ⟨"A", none⟩
    ⟨"adas_0123456789abcdef0123456789abcdef", "bearer", 86400 * 365⟩
    (by decide) (by decide) (by decide) rfl

/-- C6 counterexample: submitting against a pending record that exists
but is expired renders the expired page AND deletes the pending record —
the provider state changes, contradicting the claim's "no state
change" for the expired case. -/
theorem c6_expired_submit_mutates :
    (authorizeSubmit ⟨[], [("pid1", ⟨⟨"clientA", none⟩,
        ⟨"https://cb", "ch", some "xyz"⟩, 1000⟩)]⟩ "pid1" "k" 2000
        "code1").1 = SubmitResult.expiredPage ∧
    (authorizeSubmit ⟨[], [("pid1", ⟨⟨"clientA", none⟩,
        ⟨"https://cb", "ch", some "xyz"⟩, 1000⟩)]⟩ "pid1" "k" 2000
        "code1").2 ≠
      ⟨[], [("pid1", ⟨⟨"clientA", none⟩, ⟨"https://cb", "ch", some "xyz"⟩,
        1000⟩)]⟩ := by
  constructor
  · rfl
  · decide

/-- C6 (amended): a failing consent submission never mints a code; a
missing pending id renders the expired page with no state change; a
present-but-expired pending id renders the expired page, leaves the code
table unchanged and deletes the expired pending record; an invalid-format
key re-renders the form and retains the provider state (pending record
still live) unchanged. -/
theorem c6_failing_submit_state (st : ProviderState) (pid key c : String)
    (now : Nat) :
    (mapGet st.pending pid = none →
      authorizeSubmit st pid key now c = (SubmitResult.expiredPage, st)) ∧
    (∀ e, mapGet st.pending pid = some e → e.expiresAt < now →
      (authorizeSubmit st pid key now c).1 = SubmitResult.expiredPage ∧
      (authorizeSubmit st pid key now c).2.codes = st.codes ∧
      (authorizeSubmit st pid key now c).2.pending =
        mapErase st.pending pid) ∧
    (∀ e, mapGet st.pending pid = some e → ¬ e.expiresAt < now →
      (parseApiKey key).isValid = false →
      authorizeSubmit st pid key now c =
        (SubmitResult.invalidFormatPage, st)) := by
  refine ⟨?_, ?_, ?_⟩
  · intro h
    simp [authorizeSubmit, h, mapErase_of_get_none st.pending pid h]
  · intro e he hlt
    refine ⟨?_, ?_, ?_⟩ <;> simp [authorizeSubmit, he, hlt]
  · intro e he hnlt hinv
    simp [authorizeSubmit, he, hnlt, hinv]

theorem c6_failing_submit_state_witness :
    authorizeSubmit ⟨[], []⟩ "p" "k" 5 "c" =
      (SubmitResult.expiredPage, ⟨[], []⟩) :=
  (c6_failing_submit_state ⟨[], []⟩ "p" "k" "c" 5).1 rfl

theorem string_length_zero_iff (s : String) : s.length = 0 ↔ s = "" := by
  cases s with
  | mk data =>
    constructor
    · intro h
      have hd : data = [] := List.length_eq_zero.mp h
      subst hd; rfl
    · intro h; rw [h]; rfl

theorem isAuthenticated_false_iff (env : Env) (m : SessionMap)
    (sid : String) : isAuthenticated env m sid = false ↔
    (getCredentials env m sid).apiKey = "" := by
  unfold isAuthenticated
  rw [decide_eq_false_iff_not]
  constructor
  · intro h
    exact (string_length_zero_iff _).mp (by omega)
  · intro h
    rw [h]
    simp

/-- C7 counterexample: with the environment default API key configured
(ADAS_API_KEY set) and no session entry for the session id — i.e. no
explicit authentication step ever performed for it — a write tool call
proceeds to its handler on the default credentials instead of being
refused with the authentication-required instruction. -/
theorem c7_env_key_bypasses_gate :
    gateToolCall ⟨"", "adas_0123456789abcdef0123456789abcdef"⟩ []
      "ateam_deploy_solution" "sess1" = ToolOutcome.proceedToHandler := by
  decide

/-- C7 (amended): a known write tool is refused with the
authentication-required instruction exactly when no API key is available
from any source — neither a stored session entry nor the environment
default; with a key from either source the write call proceeds on those
credentials, and known non-write (read-only) tools always proceed to
their handler regardless of credentials. -/
theorem c7_write_gate (env : Env) (m : SessionMap) (name sid : String) :
    (name ∈ HANDLER_TOOLS → name ∈ WRITE_TOOLS →
      (getCredentials env m sid).apiKey = "" →
      gateToolCall env m name sid = ToolOutcome.authRequired) ∧
    (name ∈ HANDLER_TOOLS → name ∉ WRITE_TOOLS →
      gateToolCall env m name sid = ToolOutcome.proceedToHandler) ∧
    (name ∈ HANDLER_TOOLS → (getCredentials env m sid).apiKey ≠ "" →
      gateToolCall env m name sid = ToolOutcome.proceedToHandler) ∧
    (gateToolCall env m name sid = ToolOutcome.authRequired →
      (getCredentials env m sid).apiKey = "") := by
  refine ⟨?_, ?_, ?_, ?_⟩
  · intro h1 h2 hk
    unfold gateToolCall
    rw [if_neg (not_not_intro h1),
      if_pos ⟨h2, (isAuthenticated_false_iff env m sid).mpr hk⟩]
  · intro h1 h2
    unfold gateToolCall
    rw [if_neg (not_not_intro h1), if_neg (fun hc => h2 hc.1)]
  · intro h1 hk
    unfold gateToolCall
    rw [if_neg (not_not_intro h1),
      if_neg (fun hc => hk ((isAuthenticated_false_iff env m sid).mp hc.2))]
  · intro hgate
    unfold gateToolCall at hgate
    by_cases h1 : name ∉ HANDLER_TOOLS
    · rw [if_pos h1] at hgate
      exact absurd hgate (by simp)
    · rw [if_neg h1] at hgate
      by_cases h2 : name ∈ WRITE_TOOLS ∧ isAuthenticated env m sid = false
      · exact (isAuthenticated_false_iff env m sid).mp h2.2
      · rw [if_neg h2] at hgate
        exact absurd hgate (by simp)

theorem c7_write_gate_witness :
    gateToolCall ⟨"", ""⟩ [] "ateam_deploy_solution" "s" =
      ToolOutcome.authRequired :=
  (c7_write_gate ⟨"", ""⟩ [] "ateam_deploy_solution" "s").1
    (by decide) (by decide) rfl

theorem pickNewer_stale {now : Nat} {acc : Option TokenEntry}
    {e : TokenEntry} (h : TOKEN_TTL < now - e.createdAt) :
    pickNewer now acc e = acc := by
  simp [pickNewer, h]

theorem pickNewer_fresh_isSome {now : Nat} {acc : Option TokenEntry}
    {e : TokenEntry} (h : ¬ TOKEN_TTL < now - e.createdAt) :
    (pickNewer now acc e).isSome := by
  cases acc with
  | none => simp [pickNewer, h]
  | some b =>
    simp only [pickNewer, if_neg h]
    by_cases hlt : b.createdAt < e.createdAt <;> simp [hlt]

theorem pickNewer_fresh_sound {now : Nat} {acc : Option TokenEntry}
    {e : TokenEntry} {b' : TokenEntry}
    (hacc : ∀ b, acc = some b → now - b.createdAt ≤ TOKEN_TTL)
    (h : pickNewer now acc e = some b') :
    (b' = e ∧ ¬ TOKEN_TTL < now - e.createdAt) ∨ acc = some b' := by
  by_cases hst : TOKEN_TTL < now - e.createdAt
  · rw [pickNewer_stale hst] at h
    exact Or.inr h
  · cases acc with
    | none =>
      simp [pickNewer, hst] at h
      exact Or.inl ⟨h.symm, hst⟩
    | some b =>
      simp only [pickNewer, if_neg hst] at h
      by_cases hlt : b.createdAt < e.createdAt
      · rw [if_pos hlt] at h
        simp at h
        exact Or.inl ⟨h.symm, hst⟩
      · rw [if_neg hlt] at h
        simp at h
        exact Or.inr (by rw [h])

theorem pickNewer_lower {now : Nat} {acc : Option TokenEntry}
    {e : TokenEntry} {b' : TokenEntry}
    (h : pickNewer now acc e = some b') :
    (∀ b, acc = some b → b.createdAt ≤ b'.createdAt) ∧
    (¬ TOKEN_TTL < now - e.createdAt → e.createdAt ≤ b'.createdAt) := by
  by_cases hst : TOKEN_TTL < now - e.createdAt
  · rw [pickNewer_stale hst] at h
    refine ⟨fun b hb => ?_, fun hf => absurd hst hf⟩
    rw [hb] at h
    cases h
    exact Nat.le_refl _
  · cases acc with
    | none =>
      simp [pickNewer, hst] at h
      subst h
      exact ⟨by simp, fun _ => Nat.le_refl _⟩
    | some b =>
      simp only [pickNewer, if_neg hst] at h
      by_cases hlt : b.createdAt < e.createdAt
      · rw [if_pos hlt] at h
        simp at h
        subst h
        exact ⟨fun b0 hb0 => by cases hb0; exact Nat.le_of_lt hlt,
          fun _ => Nat.le_refl _⟩
      · rw [if_neg hlt] at h
        simp at h
        subst h
        exact ⟨fun b0 hb0 => by cases hb0; exact Nat.le_refl _,
          fun _ => Nat.le_of_not_lt hlt⟩

theorem newestLoop_none_sound (now : Nat) :
    ∀ (l : List TokenEntry) (acc : Option TokenEntry),
      newestLoop now acc l = none →
      acc = none ∧ ∀ e ∈ l, TOKEN_TTL < now - e.createdAt := by
  intro l
  induction l with
  | nil =>
    intro acc h
    exact ⟨h, by simp⟩
  | cons e rest ih =>
    intro acc h
    rw [newestLoop] at h
    obtain ⟨hacc', hrest⟩ := ih _ h
    by_cases hst : TOKEN_TTL < now - e.createdAt
    · rw [pickNewer_stale hst] at hacc'
      refine ⟨hacc', fun x hx => ?_⟩
      rcases List.mem_cons.mp hx with h1 | h2
      · subst h1; exact hst
      · exact hrest x h2
    · have := @pickNewer_fresh_isSome now acc e hst
      rw [hacc'] at this
      simp at this

theorem newestLoop_none_complete (now : Nat) :
    ∀ (l : List TokenEntry),
      (∀ e ∈ l, TOKEN_TTL < now - e.createdAt) →
      newestLoop now none l = none := by
  intro l
  induction l with
  | nil => intro _; rfl
  | cons e rest ih =>
    intro h
    rw [newestLoop, pickNewer_stale (h e (List.mem_cons_self e rest))]
    exact ih fun x hx => h x (List.mem_cons_of_mem e hx)

theorem newestLoop_some_sound (now : Nat) :
    ∀ (l : List TokenEntry) (acc : Option TokenEntry),
      (∀ b, acc = some b → now - b.createdAt ≤ TOKEN_TTL) →
      ∀ r, newestLoop now acc l = some r →
        (acc = some r ∨ (r ∈ l ∧ now - r.createdAt ≤ TOKEN_TTL)) ∧
        (∀ e ∈ l, now - e.createdAt ≤ TOKEN_TTL →
          e.createdAt ≤ r.createdAt) ∧
        (∀ b, acc = some b → b.createdAt ≤ r.createdAt) := by
  intro l
  induction l with
  | nil =>
    intro acc _ r h
    refine ⟨Or.inl h, by simp, fun b hb => ?_⟩
    rw [hb] at h
    cases h
    exact Nat.le_refl _
  | cons e rest ih =>
    intro acc hacc r h
    rw [newestLoop] at h
    have hacc' : ∀ b, pickNewer now acc e = some b →
        now - b.createdAt ≤ TOKEN_TTL := by
      intro b hb
      rcases pickNewer_fresh_sound hacc hb with ⟨hbe, hfresh⟩ | hb2
      · subst hbe; exact Nat.le_of_not_lt hfresh
      · exact hacc b hb2
    obtain ⟨hmem, hmax, hbound⟩ := ih _ hacc' r h
    refine ⟨?_, ?_, ?_⟩
    · rcases hmem with h1 | h2
      · rcases pickNewer_fresh_sound hacc h1 with ⟨hre, hfresh⟩ | h3
        · subst hre
          exact Or.inr ⟨List.mem_cons_self _ _, Nat.le_of_not_lt hfresh⟩
        · exact Or.inl h3
      · exact Or.inr ⟨List.mem_cons_of_mem e h2.1, h2.2⟩
    · intro x hx hxf
      rcases List.mem_cons.mp hx with h1 | h2
      · subst h1
        have hne : ¬ TOKEN_TTL < now - x.createdAt := Nat.not_lt_of_le hxf
        have hsome := @pickNewer_fresh_isSome now acc x hne
        obtain ⟨b', hb'⟩ := Option.isSome_iff_exists.mp hsome
        calc x.createdAt ≤ b'.createdAt := (pickNewer_lower hb').2 hne
          _ ≤ r.createdAt := hbound b' hb'
      · exact hmax x h2 hxf
    · intro b hb
      by_cases hst : TOKEN_TTL < now - e.createdAt
      · exact hbound b (by rw [pickNewer_stale hst]; exact hb)
      · have hsome := @pickNewer_fresh_isSome now acc e hst
        obtain ⟨b', hb'⟩ := Option.isSome_iff_exists.mp hsome
        calc b.createdAt ≤ b'.createdAt := (pickNewer_lower hb').1 b hb
          _ ≤ r.createdAt := hbound b' hb'

/-- C9 counterexample: a request carrying an Authorization header with an
empty value is falsy in JavaScript, so the middleware does not leave it
unchanged — it overwrites the header with the cached token, contradicting
the claim that every request already carrying an Authorization header is
left untouched. -/
theorem c9_empty_auth_header_overwritten :
    autoInjectToken [⟨"tok1", 0⟩] 0 ⟨"POST", some ""⟩ ≠
      ⟨"POST", some ""⟩ := by
  decide

/-- C9 (amended): in best-effort mode, a call whose Authorization header
is present and non-empty passes through unchanged; a call with a falsy
Authorization header (absent or empty) gets nothing injected when every
cached token is older than TOKEN_TTL, and otherwise gets `Bearer t`
injected where t is the token of a cached entry of maximal creation time
among the non-expired entries. -/
theorem c9_token_relay (cache : List TokenEntry) (now : Nat)
    (req : McpRequest) :
    (∀ a, req.authorization = some a → a ≠ "" →
      autoInjectToken cache now req = req) ∧
    (optTruthy req.authorization = false →
      ((∀ e ∈ cache, TOKEN_TTL < now - e.createdAt) →
        autoInjectToken cache now req = req) ∧
      (∀ t, getNewestToken cache now = some t →
        autoInjectToken cache now req =
          { req with authorization := some ("Bearer " ++ t) } ∧
        ∃ e ∈ cache, e.token = t ∧ now - e.createdAt ≤ TOKEN_TTL ∧
          ∀ e2 ∈ cache, now - e2.createdAt ≤ TOKEN_TTL →
            e2.createdAt ≤ e.createdAt) ∧
      ((∃ e ∈ cache, now - e.createdAt ≤ TOKEN_TTL) →
        (getNewestToken cache now).isSome)) := by
  refine ⟨?_, ?_⟩
  · intro a ha hne
    unfold autoInjectToken
    rw [if_pos (by simp [optTruthy, ha, hne])]
  · intro hfalsy
    refine ⟨?_, ?_, ?_⟩
    · intro hall
      unfold autoInjectToken
      rw [if_neg (by simp [hfalsy])]
      have : getNewestToken cache now = none := by
        unfold getNewestToken
        rw [newestLoop_none_complete now cache hall]
        rfl
      rw [this]
    · intro t ht
      constructor
      · unfold autoInjectToken
        rw [if_neg (by simp [hfalsy]), ht]
      · unfold getNewestToken at ht
        cases hr : newestLoop now none cache with
        | none => rw [hr] at ht; simp at ht
        | some r =>
          rw [hr] at ht
          simp at ht
          obtain ⟨hmem, hmax, -⟩ :=
            newestLoop_some_sound now cache none (by simp) r hr
          rcases hmem with h1 | h2
          · simp at h1
          · exact ⟨r, h2.1, ht, h2.2, hmax⟩
    · rintro ⟨e, he, hef⟩
      cases hr : newestLoop now none cache with
      | none =>
        obtain ⟨-, hall⟩ := newestLoop_none_sound now cache none hr
        exact absurd (hall e he) (Nat.not_lt_of_le hef)
      | some r =>
        unfold getNewestToken
        rw [hr]
        rfl

theorem c9_token_relay_witness :
    autoInjectToken [⟨"tok1", 0⟩] 0 ⟨"POST", some "Bearer x"⟩ =
      ⟨"POST", some "Bearer x"⟩ :=
  (c9_token_relay [⟨"tok1", 0⟩] 0 ⟨"POST", some "Bearer x"⟩).1
    "Bearer x" rfl (by decide)

theorem storedOrMain_ne_empty (o : Option String) :
    storedOrMain o ≠ "" := by
  cases o with
  | none => simp [storedOrMain]
  | some t =>
    by_cases ht : t = "" <;> simp [storedOrMain, ht]

theorem mainIfEmpty_ne_empty (t : String) : mainIfEmpty t ≠ "" := by
  by_cases ht : t = "" <;> simp [mainIfEmpty, ht]

theorem reachable_storeOK (m : SessionMap) (h : ReachableStore m) :
    StoreOK m := by
  induction h with
  | empty => intro p hp; simp at hp
  | set m sid tenant apiKey _ ih =>
    intro p hp
    unfold setSessionCredentials mapSet at hp
    rcases List.mem_cons.mp hp with h1 | h2
    · subst h1
      exact storedOrMain_ne_empty _
    · exact ih p (List.mem_of_mem_filter h2)
  | clear m sid _ ih =>
    intro p hp
    exact ih p (List.mem_of_mem_filter hp)

theorem parse_some_tenant_key_ne_empty {apiKey : String} {t : String}
    (h : (parseApiKey apiKey).tenant = some t) : apiKey ≠ "" := by
  intro hk
  rw [hk] at h
  simp [parseApiKey, parseApiKeyChars, adasTag] at h

/-- C10: on every store state reachable through the public operations,
getCredentials returns a non-empty tenant for every session id, the
outbound header set always carries the tenant header, and
setSessionCredentials resolves a missing tenant from the tenant embedded
in the supplied key, defaulting to "main" when the key embeds none. -/
theorem c10_tenant_always_present (m : SessionMap) (h : ReachableStore m)
    (env : Env) (sid : String) :
    (getCredentials env m sid).tenant ≠ "" ∧
    (headers env m sid).xAdasTenant =
      some (getCredentials env m sid).tenant ∧
    (∀ apiKey t, (parseApiKey apiKey).tenant = some t → t ≠ "" →
      resolveStoredTenant none apiKey = t) ∧
    (∀ apiKey, (parseApiKey apiKey).tenant = none →
      resolveStoredTenant none apiKey = "main") := by
  have hok : StoreOK m := reachable_storeOK m h
  have htenant : (getCredentials env m sid).tenant ≠ "" := by
    unfold getCredentials
    cases hlook : (if sid = "" then none else mapGet m sid) with
    | none =>
      exact mainIfEmpty_ne_empty _
    | some s =>
      have hmem : (sid, s) ∈ m := by
        by_cases hs : sid = ""
        · rw [if_pos hs] at hlook; simp at hlook
        · rw [if_neg hs] at hlook; exact mapGet_mem hlook
      exact hok _ hmem
  refine ⟨htenant, ?_, ?_, ?_⟩
  · unfold headers
    simp only []
    rw [if_neg htenant]
  · intro apiKey t hkt hne
    unfold resolveStoredTenant
    rw [if_neg (by simp [optTruthy]),
      if_pos (parse_some_tenant_key_ne_empty hkt), hkt]
    simp [storedOrMain, hne]
  · intro apiKey hkn
    unfold resolveStoredTenant
    rw [if_neg (by simp [optTruthy])]
    by_cases hk : apiKey ≠ ""
    · rw [if_pos hk, hkn]
      rfl
    · rw [if_neg hk]
      rfl

theorem c10_tenant_always_present_witness :
    (getCredentials ⟨"", ""⟩ [] "s").tenant ≠ "" ∧
    (headers ⟨"", ""⟩ [] "s").xAdasTenant =
      some (getCredentials ⟨"", ""⟩ [] "s").tenant ∧
    resolveStoredTenant none
      "adas_acme_0123456789abcdef0123456789abcdef" = "acme" :=
  ⟨(c10_tenant_always_present [] ReachableStore.empty ⟨"", ""⟩ "s").1,
   (c10_tenant_always_present [] ReachableStore.empty ⟨"", ""⟩ "s").2.1,
   (c10_tenant_always_present [] ReachableStore.empty ⟨"", ""⟩ "s").2.2.1
     "adas_acme_0123456789abcdef0123456789abcdef" "acme"
     (by decide) (by decide)⟩

theorem newestFallback_some_mem (now : Nat) :
    ∀ (l : List TenantFallbackEntry) (acc : Option TenantFallbackEntry)
      (r : TenantFallbackEntry), newestFallback now acc l = some r →
      acc = some r ∨ r ∈ l := by
  intro l
  induction l with
  | nil => intro acc r h; exact Or.inl h
  | cons e rest ih =>
    intro acc r h
    rw [newestFallback] at h
    rcases ih _ r h with h1 | h2
    · cases acc with
      | none =>
        simp [fallbackStep] at h1
        exact Or.inr (h1 ▸ List.mem_cons_self e rest)
      | some b =>
        simp only [fallbackStep] at h1
        by_cases hlt : b.created_at < e.created_at
        · rw [if_pos hlt] at h1
          injection h1 with h1
          exact Or.inr (h1 ▸ List.mem_cons_self e rest)
        · rw [if_neg hlt] at h1
          exact Or.inl h1
    · exact Or.inr (List.mem_cons_of_mem e h2)

example : (seed ⟨[], [⟨"t1", "credA", 0⟩, ⟨"t2", "credB", 500⟩]⟩
    "s" "t1" 600).1 = true := by decide

example : mapGet (seed ⟨[], [⟨"t1", "credA", 0⟩, ⟨"t2", "credB", 500⟩]⟩
    "s" "t1" 600).2.sessions "s" =
    some ⟨"t1", "credA", 600, emptyContext⟩ := by decide

/-- C1: seeding a session for tenant T through the fallback cache either
installs a credential taken from a non-expired fallback entry belonging
to exactly T (returning true), or returns false and performs no
mutation; in particular no other tenant's entry, however new, is ever
installed. -/
theorem c1_seed_tenant_isolation (st : BrokerState) (sid tenant : String)
    (now : Nat) :
    ((seed st sid tenant now).1 = true →
      ∃ e ∈ st.fallback, e.tenant = tenant ∧
        now - e.created_at ≤ FALLBACK_TTL ∧
        ∃ r, mapGet (seed st sid tenant now).2.sessions sid = some r ∧
          r.tenant = tenant ∧ r.credential = e.credential) ∧
    ((seed st sid tenant now).1 = false → (seed st sid tenant now).2 = st) := by
  cases hl : fallbackLookup st.fallback tenant now with
  | none =>
    constructor
    · intro h
      simp [seed, hl] at h
    · intro _
      simp [seed, hl]
  | some e =>
    constructor
    · intro _
      have hmem : e ∈ st.fallback.filter (freshFallback now tenant) := by
        rcases newestFallback_some_mem now _ none e hl with h1 | h2
        · simp at h1
        · exact h2
      have hin := List.mem_of_mem_filter hmem
      have hfresh := List.of_mem_filter hmem
      unfold freshFallback at hfresh
      rw [Bool.and_eq_true] at hfresh
      refine ⟨e, hin, by simpa using hfresh.1, by simpa using hfresh.2, ?_⟩
      refine ⟨⟨tenant, e.credential, now, contextOf st sid⟩, ?_, rfl, rfl⟩
      simp [seed, hl, storeSet, mapGet_mapSet_self]
    · intro h
      simp [seed, hl] at h

theorem c1_seed_tenant_isolation_witness :
    (seed ⟨[], []⟩ "s" "t1" 0).1 = false ∧
    (seed ⟨[], []⟩ "s" "t1" 0).2 = ⟨[], []⟩ :=
  ⟨rfl, (c1_seed_tenant_isolation ⟨[], []⟩ "s" "t1" 0).2 rfl⟩

theorem filter_length_partition {α : Type} (l : List α) (p : α → Bool) :
    (l.filter p).length + (l.filter (fun a => ! p a)).length = l.length := by
  induction l with
  | nil => rfl
  | cons a rest ih =>
    by_cases ha : p a <;> simp [List.filter, ha] <;> omega

theorem mapGet_eq_none_of {α : Type} (m : List (String × α)) (k : String)
    (h : ∀ p ∈ m, p.1 ≠ k) : mapGet m k = none := by
  unfold mapGet
  have hfind : m.find? (fun p => p.1 = k) = none := by
    rw [List.find?_eq_none]
    intro p hp
    simpa using h p hp
  rw [hfind]

/-- C8: sweep keeps exactly the sessions whose idle time does not exceed
SESSION_TTL and the count it returns plus the survivors account for the
whole store; a second sweep at the same instant removes zero sessions and
leaves the state unchanged; and getCredentials for an id all of whose
records were swept returns the environment default. -/
theorem c8_sweep_spec (st : BrokerState) (now : Nat) (env : Env)
    (sid : String) :
    (∀ p, p ∈ (sweep st now).2.sessions ↔
      p ∈ st.sessions ∧ staleAt now p.2 = false) ∧
    (sweep st now).1 + (sweep st now).2.sessions.length =
      st.sessions.length ∧
    (sweep (sweep st now).2 now).1 = 0 ∧
    (sweep (sweep st now).2 now).2 = (sweep st now).2 ∧
    ((∀ p ∈ st.sessions, p.1 = sid → staleAt now p.2 = true) →
      brokerGetCredentials env (sweep st now).2 sid = envDefaultCreds env) := by
  refine ⟨?_, ?_, ?_, ?_, ?_⟩
  · intro p
    simp [sweep, List.mem_filter]
  · exact filter_length_partition st.sessions _
  · simp [sweep, List.filter_filter]
  · simp [sweep, List.filter_filter]
  · intro hall
    have hnone : mapGet (sweep st now).2.sessions sid = none := by
      apply mapGet_eq_none_of
      intro p hp
      simp only [sweep, List.mem_filter] at hp
      intro hk
      have := hall p hp.1 hk
      rw [this] at hp
      simp at hp
    unfold brokerGetCredentials
    rw [hnone]

theorem c8_sweep_spec_witness :
    brokerGetCredentials ⟨"", ""⟩
      (sweep ⟨[("s", ⟨"t", "c", 0, emptyContext⟩)], []⟩ 3600001).2 "s" =
      envDefaultCreds ⟨"", ""⟩ :=
  (c8_sweep_spec ⟨[("s", ⟨"t", "c", 0, emptyContext⟩)], []⟩ 3600001
    ⟨"", ""⟩ "s").2.2.2.2 (by decide)

end ATeam
